import Mathlib

/-!
Shallow embedding of `src/strutils.c` from the IRanges package: the strict
integer-list parser `strsplit_as_list_of_ints` (with its static helper
`explode_string_as_integer_vector`) and the byte-explosion routine
`safe_strexplode`.

Strings are modelled as lists of byte values (`List Nat`).  An R character
string never contains a NUL byte, so a C string handed to these routines is
NUL-free and its terminator is implicit at the end of the list.

`sscanf(str + offset, "%ld%n", &val, &n)` is modelled by `scanLong`: skip C
whitespace, consume an optional single sign, then a maximal nonempty run of
decimal digits; the consumed count stored by `%n` includes the skipped
whitespace.  The C `long` value is modelled as an unbounded `Int` (every
input whose behaviour is defined in C fits; the range test against the
32-bit bounds is kept exactly as in the source).

The `IntAE` growable buffer is represented by its abstract state, the list
of its `nelt` valid elements; `int_ae_buf.nelt = 0` (strutils.c line 77)
makes that state the empty list at the start of each element's parse.
-/

/-- C locale `isspace`: space, \t, \n, \v, \f, \r (skipped by `sscanf`). -/
def isspaceC (c : Nat) : Bool := c == 32 || (9 ≤ c && c ≤ 13)

/-- C locale `isdigit`: ASCII 48..57. -/
def isdigitC (c : Nat) : Bool := 48 ≤ c && c ≤ 57

/-- C locale `isblank`: space and \t only (used at strutils.c line 87). -/
def isblankC (c : Nat) : Bool := c == 32 || c == 9

/-- Numeric value of a big-endian list of ASCII decimal digit codes. -/
def digitsToNat (l : List Nat) : Nat := l.foldl (fun a c => 10 * a + (c - 48)) 0

/-- After `sscanf`'s initial whitespace skip: 1 if an optional sign byte
(`+` = 43 or `-` = 45) is consumed from `l1`, else 0. -/
def scanSignLen (l1 : List Nat) : Nat :=
  if l1.headD 0 == 43 || l1.headD 0 == 45 then 1 else 0

/-- The sign factor of the scanned integer: -1 when the sign byte is `-`. -/
def scanSign (l1 : List Nat) : Int :=
  if l1.headD 0 == 45 then -1 else 1

/-- The maximal run of decimal digits consumed by `%ld` after the
whitespace skip and the optional sign. -/
def scanDigits (l : List Nat) : List Nat :=
  ((l.dropWhile isspaceC).drop (scanSignLen (l.dropWhile isspaceC))).takeWhile isdigitC

/-- `sscanf(str + offset, "%ld%n", &val, &n)` at strutils.c line 79.
Returns `none` on a matching failure (no digit found, also covering the
`EOF` return on an all-whitespace tail), otherwise the parsed value and the
number of characters consumed by `%n` (whitespace + optional sign +
digits). -/
def scanLong (l : List Nat) : Option (Int × Nat) :=
  if (scanDigits l).isEmpty then none
  else some (scanSign (l.dropWhile isspaceC) * (digitsToNat (scanDigits l) : Int),
             (l.takeWhile isspaceC).length + scanSignLen (l.dropWhile isspaceC)
               + (scanDigits l).length)

/-- `INT_MIN` for 32-bit `int`. -/
def INT_MIN : Int := -2147483648

/-- `INT_MAX` for 32-bit `int`. -/
def INT_MAX : Int := 2147483647

/-- The three per-string parse error categories written into `errmsg_buf`
by `explode_string_as_integer_vector`. -/
inductive ParseErrCat where
  | tokenExpected   -- "decimal integer expected at char %d"
  | outOfRange      -- "out of range integer at char %d"
  | sepExpected     -- "separator expected at char %d"
deriving DecidableEq, Repr

/-- A per-string parse failure: category plus the 1-based character offset
printed in the message. -/
structure ParseErr where
  cat : ParseErrCat
  charOffset : Nat
deriving DecidableEq, Repr

/-- Number of blank characters skipped after a token by the
`while (isblank(str[offset])) offset++;` at strutils.c line 87: `l` is the
string tail that the token was scanned from, `n` the characters the token
consumed. -/
def blanksAfter (l : List Nat) (n : Nat) : Nat :=
  ((l.drop n).takeWhile isblankC).length

/-- The `while (str[offset])` loop of `explode_string_as_integer_vector`
(strutils.c lines 78-105).  `l` is the unconsumed tail `str + offset`,
`offset` the number of characters already consumed, `acc` the valid
contents of `int_ae_buf`.  The loop consumes at least one character per
iteration, so `fuel > l.length` guarantees the fuel-exhaustion branch
(whose arbitrary result carries the impossible offset 0; every real error
offset is ≥ 1) is never taken. -/
def explodeLoop (sep0 : Nat) : Nat → List Nat → Nat → List Int → Except ParseErr (List Int)
  | 0, _, _, _ => Except.error ⟨ParseErrCat.tokenExpected, 0⟩
  | fuel+1, l, offset, acc =>
    match l with
    | [] => Except.ok acc
    | c :: cs =>
      match scanLong (c :: cs) with
      | none => Except.error ⟨ParseErrCat.tokenExpected, offset + 1⟩
      | some (val, n) =>
        if val < INT_MIN ∨ INT_MAX < val then
          Except.error ⟨ParseErrCat.outOfRange, offset + n + blanksAfter (c :: cs) n + 1⟩
        else
          match ((c :: cs).drop n).drop (blanksAfter (c :: cs) n) with
          | [] => Except.ok (acc ++ [val])
          | d :: rest2 =>
            if d == sep0 then
              explodeLoop sep0 fuel rest2 (offset + n + blanksAfter (c :: cs) n + 1) (acc ++ [val])
            else Except.error ⟨ParseErrCat.sepExpected, offset + n + blanksAfter (c :: cs) n + 1⟩

/-- `explode_string_as_integer_vector` (strutils.c lines 70-107): reset the
buffer (`int_ae_buf.nelt = offset = 0`) and run the scan loop on the whole
string. -/
def explode_string_as_integer_vector (s : List Nat) (sep0 : Nat) : Except ParseErr (List Int) :=
  explodeLoop sep0 (s.length + 1) s 0 []

/-- The errors `strsplit_as_list_of_ints` can raise via `error(...)`. -/
inductive BatchErr where
  | invalidSeparator                         -- "'sep' cannot be a digit, \"+\" or \"-\""
  | naInput                                  -- "'x' contains NAs" (no index in the message)
  | elementError (index : Nat) (e : ParseErr) -- "in list element %d: %s" with i + 1
deriving DecidableEq, Repr

/-- The `for (i = 0; i < ans_length; i++)` loop of `strsplit_as_list_of_ints`
(strutils.c lines 122-136).  `none` models `NA_STRING`. -/
def strsplitLoop (sep0 : Nat) : List (Option (List Nat)) → Nat → List (List Int) → Except BatchErr (List (List Int))
  | [], _, acc => Except.ok acc
  | none :: _, _, _ => Except.error BatchErr.naInput
  | some s :: rest, i, acc =>
    match explode_string_as_integer_vector s sep0 with
    | Except.error e => Except.error (BatchErr.elementError (i + 1) e)
    | Except.ok v => strsplitLoop sep0 rest (i + 1) (acc ++ [v])

/-- `strsplit_as_list_of_ints` (strutils.c lines 110-139): take the first
byte of the separator string (`CHAR(STRING_ELT(sep, 0))[0]`; 0 models the
terminator of an empty separator string), validate it, then parse each
input element in order. -/
def strsplit_as_list_of_ints (x : List (Option (List Nat))) (sep : List Nat) : Except BatchErr (List (List Int)) :=
  let sep0 := sep.headD 0
  if isdigitC sep0 || sep0 == 43 || sep0 == 45 then Except.error BatchErr.invalidSeparator
  else strsplitLoop sep0 x 0 []

/-- `mkChar(buf)` on the two-byte scratch `buf = {b, 0}` of
`safe_strexplode`: `mkChar` measures its argument with `strlen`, so byte 0
yields the empty CHARSXP and any other byte a one-byte string. -/
def mkCharBuf (b : Nat) : List Nat := if b == 0 then [] else [b]

/-- `safe_strexplode` (strutils.c lines 23-39): one output element per byte
of the first input string. -/
def safe_strexplode (s0 : List Nat) : List (List Nat) := s0.map mkCharBuf

/-- Decimal representation of `v`, big-endian ASCII digit codes, with fuel
(`reprNat` supplies `v + 1`, always enough since `v` has at most `v + 1`
digits). -/
def reprNatCore : Nat → Nat → List Nat
  | 0, _ => []
  | fuel+1, v => if v < 10 then [v + 48] else reprNatCore fuel (v / 10) ++ [v % 10 + 48]

/-- Decimal representation of a natural number as ASCII digit codes. -/
def reprNat (v : Nat) : List Nat := reprNatCore (v + 1) v

/-- Join the decimal representations of `vs` with the single byte `c`. -/
def joinInts (c : Nat) : List Nat → List Nat
  | [] => []
  | [v] => reprNat v
  | v :: w :: vs => reprNat v ++ c :: joinInts c (w :: vs)

/-! ### Helper lemmas about character classes and list scanning -/

theorem isspaceC_of_digit {c : Nat} (h : isdigitC c = true) : isspaceC c = false := by
  simp [isdigitC] at h
  simp [isspaceC]
  omega

theorem digit_ne_plus {c : Nat} (h : isdigitC c = true) : (c == 43) = false := by
  simp [isdigitC] at h
  simp
  omega

theorem digit_ne_minus {c : Nat} (h : isdigitC c = true) : (c == 45) = false := by
  simp [isdigitC] at h
  simp
  omega

theorem length_takeWhile_le {p : Nat → Bool} {l : List Nat} :
    (l.takeWhile p).length ≤ l.length := by
  induction l with
  | nil => simp
  | cons a t ih =>
    by_cases h : p a
    · simpa [List.takeWhile_cons_of_pos h] using ih
    · simp [List.takeWhile_cons_of_neg h]

theorem length_takeWhile_add_dropWhile (p : Nat → Bool) (l : List Nat) :
    (l.takeWhile p).length + (l.dropWhile p).length = l.length := by
  conv_rhs => rw [← List.takeWhile_append_dropWhile p l]
  rw [List.length_append]

theorem takeWhile_append_all {p : Nat → Bool} : ∀ {xs ys : List Nat},
    (∀ c ∈ xs, p c = true) → (xs ++ ys).takeWhile p = xs ++ ys.takeWhile p := by
  intro xs
  induction xs with
  | nil => intro ys _; rfl
  | cons a t ih =>
    intro ys h
    have ha : p a = true := h a (by simp)
    simp only [List.cons_append, List.takeWhile_cons_of_pos ha]
    rw [ih fun c hc => h c (by simp [hc])]

theorem dropWhile_append_all {p : Nat → Bool} : ∀ {xs ys : List Nat},
    (∀ c ∈ xs, p c = true) → (xs ++ ys).dropWhile p = ys.dropWhile p := by
  intro xs
  induction xs with
  | nil => intro ys _; rfl
  | cons a t ih =>
    intro ys h
    have ha : p a = true := h a (by simp)
    simp only [List.cons_append, List.dropWhile_cons_of_pos ha]
    exact ih fun c hc => h c (by simp [hc])

theorem takeWhile_eq_nil_of_headD {p : Nat → Bool} {l : List Nat}
    (h : p (l.headD 0) = false) : l.takeWhile p = [] := by
  cases l with
  | nil => rfl
  | cons a t => exact List.takeWhile_cons_of_neg (by simpa using h)

/-- A successful `scanLong` consumes between 1 and `l.length` characters. -/
theorem scanLong_consumes {l : List Nat} {v : Int} {n : Nat}
    (h : scanLong l = some (v, n)) : 1 ≤ n ∧ n ≤ l.length := by
  simp only [scanLong] at h
  split at h
  · simp at h
  · rename_i hne
    rw [Option.some.injEq, Prod.mk.injEq] at h
    obtain ⟨-, hn⟩ := h
    simp only [Bool.not_eq_true, List.isEmpty_eq_false_iff_exists_mem] at hne
    have hds : 1 ≤ (scanDigits l).length := by
      obtain ⟨a, ha⟩ := hne
      exact List.length_pos.mpr (List.ne_nil_of_mem ha)
    have hdrop : (scanDigits l).length
        ≤ (l.dropWhile isspaceC).length - scanSignLen (l.dropWhile isspaceC) := by
      calc (scanDigits l).length
          ≤ ((l.dropWhile isspaceC).drop (scanSignLen (l.dropWhile isspaceC))).length :=
            length_takeWhile_le
        _ = (l.dropWhile isspaceC).length - scanSignLen (l.dropWhile isspaceC) :=
            List.length_drop _ _
    have hws := length_takeWhile_add_dropWhile isspaceC l
    omega

theorem scanLong_nil : scanLong [] = none := rfl

/-- `scanLong` on a nonempty digit run followed by a non-digit: consumes
exactly the run and returns its value. -/
theorem scanLong_digits_run {ds rest : List Nat} (hne : ds ≠ [])
    (hds : ∀ c ∈ ds, isdigitC c = true)
    (hrest : isdigitC (rest.headD 0) = false) :
    scanLong (ds ++ rest) = some ((digitsToNat ds : Int), ds.length) := by
  obtain ⟨d0, ds', rfl⟩ : ∃ d0 ds', ds = d0 :: ds' := by
    cases ds with
    | nil => exact absurd rfl hne
    | cons a t => exact ⟨a, t, rfl⟩
  have hd0 : isdigitC d0 = true := hds d0 (by simp)
  have hdw : ((d0 :: ds') ++ rest).dropWhile isspaceC = (d0 :: ds') ++ rest := by
    simp only [List.cons_append]
    exact List.dropWhile_cons_of_neg (by simp [isspaceC_of_digit hd0])
  have htw : ((d0 :: ds') ++ rest).takeWhile isspaceC = [] := by
    simp only [List.cons_append]
    exact List.takeWhile_cons_of_neg (by simp [isspaceC_of_digit hd0])
  have hhead : ((d0 :: ds') ++ rest).headD 0 = d0 := rfl
  have hsLen : scanSignLen ((d0 :: ds') ++ rest) = 0 := by
    simp only [scanSignLen, hhead, digit_ne_plus hd0, digit_ne_minus hd0]
    rfl
  have hdig : scanDigits ((d0 :: ds') ++ rest) = d0 :: ds' := by
    simp only [scanDigits, hdw, hsLen, List.drop_zero]
    rw [takeWhile_append_all hds, takeWhile_eq_nil_of_headD hrest, List.append_nil]
  have hsgn : scanSign ((d0 :: ds') ++ rest) = 1 := by
    simp only [scanSign, hhead, digit_ne_minus hd0]
    rfl
  simp only [scanLong, hdig, hdw, htw, hsgn, hsLen, List.isEmpty_cons, List.length_nil,
    List.length_cons, one_mul, if_false, Bool.false_eq_true, zero_add]

/-- `sscanf`'s whitespace skip: prepending whitespace shifts a successful
scan's consumed count by the whitespace length. -/
theorem scanLong_ws_skip {ws l : List Nat} (hws : ∀ c ∈ ws, isspaceC c = true)
    {v : Int} {n : Nat} (h : scanLong l = some (v, n)) :
    scanLong (ws ++ l) = some (v, n + ws.length) := by
  have htw : (ws ++ l).takeWhile isspaceC = ws ++ l.takeWhile isspaceC :=
    takeWhile_append_all hws
  have hdw : (ws ++ l).dropWhile isspaceC = l.dropWhile isspaceC :=
    dropWhile_append_all hws
  have hdig : scanDigits (ws ++ l) = scanDigits l := by
    simp only [scanDigits, hdw]
  simp only [scanLong, hdig, hdw, htw, List.length_append] at h ⊢
  split at h
  · simp at h
  · rename_i hne
    rw [Option.some.injEq, Prod.mk.injEq] at h
    obtain ⟨hv, hn⟩ := h
    rw [if_neg hne]
    simp only [Option.some.injEq, Prod.mk.injEq]
    exact ⟨hv, by omega⟩

/-! ### Branch equations for `explodeLoop` -/

theorem explodeLoop_nil {sep0 f : Nat} {off : Nat} {acc : List Int} :
    explodeLoop sep0 (f + 1) [] off acc = Except.ok acc := rfl

theorem explodeLoop_cons_none {sep0 f c off : Nat} {cs : List Nat} {acc : List Int}
    (h : scanLong (c :: cs) = none) :
    explodeLoop sep0 (f + 1) (c :: cs) off acc =
      Except.error ⟨ParseErrCat.tokenExpected, off + 1⟩ := by
  simp only [explodeLoop, h]

theorem explodeLoop_cons_oor {sep0 f c off : Nat} {cs : List Nat} {acc : List Int}
    {v : Int} {n : Nat} (h : scanLong (c :: cs) = some (v, n))
    (hr : v < INT_MIN ∨ INT_MAX < v) :
    explodeLoop sep0 (f + 1) (c :: cs) off acc =
      Except.error ⟨ParseErrCat.outOfRange, off + n + blanksAfter (c :: cs) n + 1⟩ := by
  simp only [explodeLoop, h, if_pos hr]

theorem explodeLoop_cons_last {sep0 f c off : Nat} {cs : List Nat} {acc : List Int}
    {v : Int} {n : Nat} (h : scanLong (c :: cs) = some (v, n))
    (hr : ¬(v < INT_MIN ∨ INT_MAX < v))
    (hd : ((c :: cs).drop n).drop (blanksAfter (c :: cs) n) = []) :
    explodeLoop sep0 (f + 1) (c :: cs) off acc = Except.ok (acc ++ [v]) := by
  simp only [explodeLoop, h, if_neg hr, hd]

theorem explodeLoop_cons_sep {sep0 f c off d : Nat} {cs rest2 : List Nat} {acc : List Int}
    {v : Int} {n : Nat} (h : scanLong (c :: cs) = some (v, n))
    (hr : ¬(v < INT_MIN ∨ INT_MAX < v))
    (hd : ((c :: cs).drop n).drop (blanksAfter (c :: cs) n) = d :: rest2)
    (hsep : d = sep0) :
    explodeLoop sep0 (f + 1) (c :: cs) off acc =
      explodeLoop sep0 f rest2 (off + n + blanksAfter (c :: cs) n + 1) (acc ++ [v]) := by
  simp only [explodeLoop, h, if_neg hr, hd, hsep, beq_self_eq_true, if_true]

theorem explodeLoop_cons_badsep {sep0 f c off d : Nat} {cs rest2 : List Nat} {acc : List Int}
    {v : Int} {n : Nat} (h : scanLong (c :: cs) = some (v, n))
    (hr : ¬(v < INT_MIN ∨ INT_MAX < v))
    (hd : ((c :: cs).drop n).drop (blanksAfter (c :: cs) n) = d :: rest2)
    (hsep : (d == sep0) = false) :
    explodeLoop sep0 (f + 1) (c :: cs) off acc =
      Except.error ⟨ParseErrCat.sepExpected, off + n + blanksAfter (c :: cs) n + 1⟩ := by
  simp only [explodeLoop, h, if_neg hr, hd, hsep, Bool.false_eq_true, if_false]

/-- Length accounting for the remainder after token, blanks and separator. -/
theorem drop_sep_length {c n bl d : Nat} {cs rest2 : List Nat}
    (hd : ((c :: cs).drop n).drop bl = d :: rest2) :
    rest2.length + 1 = cs.length + 1 - n - bl := by
  have := congrArg List.length hd
  simp only [List.length_drop, List.length_cons] at this
  omega

/-- The loop's result does not depend on the fuel, as long as the fuel
exceeds the length of the unconsumed string. -/
theorem explodeLoop_fuel {sep0 : Nat} : ∀ (f f' : Nat) (l : List Nat) (off : Nat)
    (acc : List Int), l.length < f → l.length < f' →
    explodeLoop sep0 f l off acc = explodeLoop sep0 f' l off acc := by
  intro f
  induction f with
  | zero => intro f' l off acc h h'; omega
  | succ fu ih =>
    intro f' l off acc hf hf'
    obtain ⟨fu', rfl⟩ : ∃ k, f' = k + 1 := ⟨f' - 1, by omega⟩
    cases l with
    | nil => rfl
    | cons c cs =>
      cases hscan : scanLong (c :: cs) with
      | none => rw [explodeLoop_cons_none hscan, explodeLoop_cons_none hscan]
      | some p =>
        obtain ⟨v, n⟩ := p
        by_cases hr : v < INT_MIN ∨ INT_MAX < v
        · rw [explodeLoop_cons_oor hscan hr, explodeLoop_cons_oor hscan hr]
        · cases hd : ((c :: cs).drop n).drop (blanksAfter (c :: cs) n) with
          | nil => rw [explodeLoop_cons_last hscan hr hd, explodeLoop_cons_last hscan hr hd]
          | cons d rest2 =>
            have hn := scanLong_consumes hscan
            have hlen := drop_sep_length hd
            simp only [List.length_cons] at hf hf' hn
            by_cases hsep : d = sep0
            · rw [explodeLoop_cons_sep hscan hr hd hsep,
                explodeLoop_cons_sep hscan hr hd hsep]
              exact ih fu' rest2 _ _ (by omega) (by omega)
            · have hsep' : (d == sep0) = false := by simp [hsep]
              rw [explodeLoop_cons_badsep hscan hr hd hsep',
                explodeLoop_cons_badsep hscan hr hd hsep']

/-! ### Decimal representation lemmas -/

theorem digitsToNat_append (xs : List Nat) (c : Nat) :
    digitsToNat (xs ++ [c]) = 10 * digitsToNat xs + (c - 48) := by
  simp [digitsToNat, List.foldl_append]

theorem reprNatCore_spec : ∀ (fuel v : Nat), v < fuel →
    reprNatCore fuel v ≠ [] ∧ (∀ c ∈ reprNatCore fuel v, isdigitC c = true) ∧
      digitsToNat (reprNatCore fuel v) = v := by
  intro fuel
  induction fuel with
  | zero => intro v h; omega
  | succ fu ih =>
    intro v hv
    by_cases h10 : v < 10
    · simp only [reprNatCore, if_pos h10]
      refine ⟨by simp, ?_, ?_⟩
      · intro c hc
        simp only [List.mem_singleton] at hc
        subst hc
        simp only [isdigitC, Bool.and_eq_true, decide_eq_true_eq]
        omega
      · simp [digitsToNat]
    · simp only [reprNatCore, if_neg h10]
      have hdiv : v / 10 < v := Nat.div_lt_self (by omega) (by omega)
      obtain ⟨hne, hdig, hval⟩ := ih (v / 10) (by omega)
      refine ⟨by simp, ?_, ?_⟩
      · intro c hc
        rw [List.mem_append] at hc
        rcases hc with hc | hc
        · exact hdig c hc
        · simp only [List.mem_singleton] at hc
          subst hc
          simp only [isdigitC, Bool.and_eq_true, decide_eq_true_eq]
          omega
      · rw [digitsToNat_append, hval]
        omega

theorem reprNat_spec (v : Nat) :
    reprNat v ≠ [] ∧ (∀ c ∈ reprNat v, isdigitC c = true) ∧
      digitsToNat (reprNat v) = v :=
  reprNatCore_spec (v + 1) v (by omega)

/-- Scanning a decimal representation followed by a non-digit recovers the
value and consumes exactly the representation. -/
theorem scanLong_reprNat {v : Nat} {rest : List Nat}
    (hrest : isdigitC (rest.headD 0) = false) :
    scanLong (reprNat v ++ rest) = some ((v : Int), (reprNat v).length) := by
  obtain ⟨hne, hdig, hval⟩ := reprNat_spec v
  rw [scanLong_digits_run hne hdig hrest, hval]

/-! ### Round-trip -/

/-- Core of the round-trip: running the parse loop on `joinInts c vs` with a
separator that is not a digit, a blank, or a sign appends exactly `vs`. -/
theorem roundtrip_loop {c : Nat} (hdc : isdigitC c = false) (hbc : isblankC c = false) :
    ∀ (vs : List Nat), vs ≠ [] → (∀ v ∈ vs, v ≤ 2147483647) →
    ∀ (f off : Nat) (acc : List Int), (joinInts c vs).length < f →
    explodeLoop c f (joinInts c vs) off acc =
      Except.ok (acc ++ vs.map Int.ofNat) := by
  intro vs
  induction vs with
  | nil => intro h; exact absurd rfl h
  | cons v vs' ih =>
    intro _ hbound f off acc hf
    obtain ⟨d0, ds, heq⟩ : ∃ d0 ds, reprNat v = d0 :: ds := by
      obtain ⟨hne, -, -⟩ := reprNat_spec v
      cases hrn : reprNat v with
      | nil => exact absurd hrn hne
      | cons a t => exact ⟨a, t, rfl⟩
    have hv : v ≤ 2147483647 := hbound v (by simp)
    have hrange : ¬(((v : Nat) : Int) < INT_MIN ∨ INT_MAX < ((v : Nat) : Int)) := by
      simp only [INT_MIN, INT_MAX]
      omega
    cases vs' with
    | nil =>
      have hjoin : joinInts c [v] = reprNat v := rfl
      have hscan : scanLong (reprNat v) = some ((v : Int), (reprNat v).length) := by
        have := @scanLong_reprNat v [] (by rfl)
        simpa using this
      rw [heq] at hscan
      rw [hjoin, heq] at hf ⊢
      obtain ⟨fu, rfl⟩ : ∃ k, f = k + 1 := ⟨f - 1, by omega⟩
      rw [explodeLoop_cons_last hscan hrange ?hdrop]
      · simp [Int.ofNat_eq_natCast]
      case hdrop =>
        have h1 : (d0 :: ds).drop (d0 :: ds).length = [] := List.drop_length _
        rw [h1]
        simp [blanksAfter, h1]
    | cons w vs'' =>
      have hjoin : joinInts c (v :: w :: vs'')
          = d0 :: (ds ++ (c :: joinInts c (w :: vs''))) := by
        show reprNat v ++ (c :: joinInts c (w :: vs''))
            = d0 :: (ds ++ (c :: joinInts c (w :: vs'')))
        rw [heq]
        rfl
      have hscan : scanLong (d0 :: (ds ++ (c :: joinInts c (w :: vs''))))
          = some ((v : Int), (d0 :: ds).length) := by
        have := @scanLong_reprNat v (c :: joinInts c (w :: vs''))
          (by simpa using hdc)
        rw [heq] at this
        simpa using this
      have hdl : ((d0 :: ds) ++ (c :: joinInts c (w :: vs''))).drop (d0 :: ds).length
          = c :: joinInts c (w :: vs'') := List.drop_left _ _
      simp only [List.cons_append] at hdl
      have hbl : blanksAfter (d0 :: (ds ++ (c :: joinInts c (w :: vs'')))) (d0 :: ds).length
          = 0 := by
        simp only [blanksAfter, hdl]
        rw [List.takeWhile_cons_of_neg (by simp [hbc])]
        rfl
      rw [hjoin] at hf ⊢
      obtain ⟨fu, rfl⟩ : ∃ k, f = k + 1 := ⟨f - 1, by omega⟩
      rw [explodeLoop_cons_sep hscan hrange ?hdrop rfl]
      case hdrop =>
        rw [hbl, List.drop_zero]
        exact hdl
      rw [ih (by simp) (fun u hu => hbound u (by simp [hu])) fu _ (acc ++ [(v : Int)]) ?hfu]
      · simp [Int.ofNat_eq_natCast]
      case hfu =>
        simp only [List.length_cons, List.length_append] at hf ⊢
        omega

/-! ### More shared helpers -/

theorem drop_append_len : ∀ (ws l : List Nat) (n : Nat),
    (ws ++ l).drop (n + ws.length) = l.drop n := by
  intro ws
  induction ws with
  | nil => intro l n; simp
  | cons w t ih =>
    intro l n
    simp only [List.cons_append, List.length_cons]
    rw [show n + (t.length + 1) = (n + t.length) + 1 by omega, List.drop_succ_cons]
    exact ih l n

theorem blanksAfter_append (ws l : List Nat) (n : Nat) :
    blanksAfter (ws ++ l) (n + ws.length) = blanksAfter l n := by
  simp [blanksAfter, drop_append_len]

/-- When the separator byte passes the validation at strutils.c line 118,
`strsplit_as_list_of_ints` is the per-element loop. -/
theorem strsplit_valid {x : List (Option (List Nat))} {sep : List Nat}
    (h : (isdigitC (sep.headD 0) || sep.headD 0 == 43 || sep.headD 0 == 45) = false) :
    strsplit_as_list_of_ints x sep = strsplitLoop (sep.headD 0) x 0 [] := by
  simp only [strsplit_as_list_of_ints, h, Bool.false_eq_true, if_false]

/-- Structure of a successful batch parse: the result extends `acc` with one
integer vector per input element, each equal to the independent parse of
that element. -/
theorem strsplitLoop_ok : ∀ (x : List (Option (List Nat))) (sep0 i : Nat)
    (acc res : List (List Int)), strsplitLoop sep0 x i acc = Except.ok res →
    ∃ tail, res = acc ++ tail ∧ tail.length = x.length ∧
      ∀ (j : Nat) (s : List Nat), x[j]? = some (some s) →
        ∃ v, explode_string_as_integer_vector s sep0 = Except.ok v ∧ tail[j]? = some v := by
  intro x
  induction x with
  | nil =>
    intro sep0 i acc res h
    simp only [strsplitLoop, Except.ok.injEq] at h
    subst h
    exact ⟨[], by simp, rfl, by intro j s hj; simp at hj⟩
  | cons e t ih =>
    intro sep0 i acc res h
    cases e with
    | none => simp [strsplitLoop] at h
    | some s0 =>
      cases hex : explode_string_as_integer_vector s0 sep0 with
      | error pe => simp [strsplitLoop, hex] at h
      | ok v0 =>
        simp only [strsplitLoop, hex] at h
        obtain ⟨tail, rfl, hlen, htail⟩ := ih _ _ _ _ h
        refine ⟨v0 :: tail, by simp, by simp [hlen], ?_⟩
        intro j s hj
        cases j with
        | zero =>
          simp only [List.getElem?_cons_zero, Option.some.injEq] at hj
          exact ⟨v0, hj ▸ hex, by simp⟩
        | succ j' =>
          simp only [List.getElem?_cons_succ] at hj ⊢
          exact htail j' s hj

/-- Concatenating the explosion of a NUL-free byte string reproduces it. -/
theorem flatten_safe_strexplode : ∀ (s0 : List Nat), (∀ b ∈ s0, b ≠ 0) →
    (safe_strexplode s0).flatten = s0 := by
  intro s0
  induction s0 with
  | nil => intro _; rfl
  | cons b t ih =>
    intro h
    have hb : (b == 0) = false := by simp [h b (by simp)]
    simp only [safe_strexplode, List.map_cons, List.flatten_cons] at ih ⊢
    rw [show mkCharBuf b = [b] by simp [mkCharBuf, hb], List.singleton_append]
    rw [ih (fun u hu => h u (by simp [hu]))]

/-! ### Claim theorems -/

/-- C2: parsing the single input string "10.5" (bytes 49 48 46 53) with
separator ',' (44) fails with the SeparatorExpected category at 1-based
character offset 3 (the '.' after token "10"), and parsing "abc" (97 98 99)
with ',' fails with TokenExpected at offset 1. -/
theorem C2_strict_rejection :
    strsplit_as_list_of_ints [some [49, 48, 46, 53]] [44] =
      Except.error (BatchErr.elementError 1 ⟨ParseErrCat.sepExpected, 3⟩) ∧
    strsplit_as_list_of_ints [some [97, 98, 99]] [44] =
      Except.error (BatchErr.elementError 1 ⟨ParseErrCat.tokenExpected, 1⟩) :=
  ⟨rfl, rfl⟩

/-- C4: whenever the first byte of the separator string is a decimal digit,
'+' (43) or '-' (45), `strsplit_as_list_of_ints` fails with the
InvalidSeparator error for every input batch `x` whatsoever — including
batches containing NA markers or arbitrary malformed strings — showing the
validation precedes any examination of the input elements (strutils.c
lines 116-119). -/
theorem C4_separator_validation (x : List (Option (List Nat))) (sep : List Nat)
    (h : (isdigitC (sep.headD 0) || sep.headD 0 == 43 || sep.headD 0 == 45) = true) :
    strsplit_as_list_of_ints x sep = Except.error BatchErr.invalidSeparator := by
  simp only [strsplit_as_list_of_ints, h, if_true]

/-- Witness for C4 at separator "5" (byte 53) and a batch whose first
element is the NA marker: the separator error still wins. -/
theorem C4_separator_validation_witness :
    strsplit_as_list_of_ints [none, some [97]] [53] =
      Except.error BatchErr.invalidSeparator :=
  C4_separator_validation [none, some [97]] [53] (by decide)

/-- C10: only the first byte of the separator string is ever consulted
(`CHAR(STRING_ELT(sep, 0))[0]`, strutils.c line 117): appending any extra
bytes to a separator string changes nothing, so a separator of length
greater than one is not rejected and its tail is silently ignored. -/
theorem C10_sep_first_char (x : List (Option (List Nat))) (c : Nat) (rest : List Nat) :
    strsplit_as_list_of_ints x (c :: rest) = strsplit_as_list_of_ints x [c] := rfl

/-- C8 counterexample: the claim includes byte value 0, but `mkChar`
measures the scratch buffer with `strlen`, so the element produced for
byte 0 is the empty string, not a single-byte string, and concatenation
loses the byte: `safe_strexplode [0]` is `[[]]`, whose concatenation `[]`
differs from `[0]`. -/
theorem C8_counterexample :
    safe_strexplode [0] = [[]] ∧ (safe_strexplode [0]).flatten ≠ [0] :=
  ⟨rfl, by decide⟩

/-- C8 (amended): for every NUL-free byte string — the only byte strings an
R CHARSXP can hold — `safe_strexplode` returns one element per byte, each a
single-byte string, and concatenating them reproduces the input; this holds
for all byte values 1..255 including non-printable and high-bit-set
bytes. -/
theorem C8_explode : ∀ (s0 : List Nat), (∀ b ∈ s0, b ≠ 0) →
    (safe_strexplode s0).length = s0.length ∧
    (∀ e ∈ safe_strexplode s0, e.length = 1) ∧
    (safe_strexplode s0).flatten = s0 := by
  intro s0 h
  refine ⟨by simp [safe_strexplode], ?_, flatten_safe_strexplode s0 h⟩
  intro e he
  simp only [safe_strexplode, List.mem_map] at he
  obtain ⟨b, hb, rfl⟩ := he
  simp [mkCharBuf, h b hb]

/-- Witness for C8 on the two-byte string \n\xff (bytes 10, 255): its
explosion concatenates back to itself. -/
theorem C8_explode_witness : (safe_strexplode [10, 255]).flatten = [10, 255] :=
  (C8_explode [10, 255] (by decide)).2.2

/-- C5 counterexample: the claim says a separator at end of string leaves
an empty token that must be rejected, but after consuming a final
separator the loop guard `while (str[offset])` sees the terminator and
returns successfully: parsing "1," (bytes 49 44) with ',' succeeds with
[1] instead of failing. -/
theorem C5_counterexample :
    strsplit_as_list_of_ints [some [49, 44]] [44] = Except.ok [[1]] := rfl

/-- C5 (amended): at any position where the loop requires a token — the
start of a non-empty string, or immediately after a consumed separator
that is not at end-of-string (both are loop re-entries with a non-empty
tail) — a failed `sscanf` match aborts the parse with TokenExpected at
that position; however a separator at the very end of the string is
accepted (the loop exits successfully), and the empty string parses to the
empty vector. -/
theorem C5_empty_token :
    (∀ (sep0 f off : Nat) (l : List Nat) (acc : List Int),
      l ≠ [] → scanLong l = none →
      explodeLoop sep0 (f + 1) l off acc =
        Except.error ⟨ParseErrCat.tokenExpected, off + 1⟩) ∧
    strsplit_as_list_of_ints [some [49, 44]] [44] = Except.ok [[1]] ∧
    strsplit_as_list_of_ints [some []] [44] = Except.ok [[]] := by
  refine ⟨?_, rfl, rfl⟩
  intro sep0 f off l acc hne hscan
  cases l with
  | nil => exact absurd rfl hne
  | cons c cs => exact explodeLoop_cons_none hscan

/-- Witness for C5 at the tail ",1" (bytes 44 49), the loop position after
parsing "1," out of "1,,1": no token is present, so TokenExpected fires. -/
theorem C5_empty_token_witness :
    explodeLoop 44 1 [44, 49] 0 [] = Except.error ⟨ParseErrCat.tokenExpected, 1⟩ :=
  C5_empty_token.1 44 0 0 [44, 49] [] (by decide) rfl

/-- C7 counterexample: the claim says the MissingInput error reports the
offending element's 1-based index, but the C code raises the bare message
"'x' contains NAs" (strutils.c line 126) with no index: the error value is
identical whether the NA sits at index 1 or at index 2, so it cannot
identify the element. -/
theorem C7_counterexample :
    strsplit_as_list_of_ints [none] [44] = Except.error BatchErr.naInput ∧
    strsplit_as_list_of_ints [some [49], none] [44] = Except.error BatchErr.naInput ∧
    strsplit_as_list_of_ints [none] [44] = strsplit_as_list_of_ints [some [49], none] [44] :=
  ⟨rfl, rfl, rfl⟩

/-- C7 (amended): with a valid separator, if every element before the first
NA marker parses successfully, the batch fails with the NA error — raised
before any per-character parsing of the NA element begins, independent of
the content of the following elements — but the error does not carry the
offending element's index. -/
theorem C7_missing_input (pre post : List (Option (List Nat))) (sep : List Nat)
    (hval : (isdigitC (sep.headD 0) || sep.headD 0 == 43 || sep.headD 0 == 45) = false)
    (hpre : ∀ e ∈ pre, ∃ s v, e = some s ∧
      explode_string_as_integer_vector s (sep.headD 0) = Except.ok v) :
    strsplit_as_list_of_ints (pre ++ none :: post) sep = Except.error BatchErr.naInput := by
  rw [strsplit_valid hval]
  suffices h : ∀ (pre' : List (Option (List Nat))) (i : Nat) (acc : List (List Int)),
      (∀ e ∈ pre', ∃ s v, e = some s ∧
        explode_string_as_integer_vector s (sep.headD 0) = Except.ok v) →
      strsplitLoop (sep.headD 0) (pre' ++ none :: post) i acc =
        Except.error BatchErr.naInput from
    h pre 0 [] hpre
  intro pre'
  induction pre' with
  | nil => intro i acc _; rfl
  | cons e t ih =>
    intro i acc hp
    obtain ⟨s, v, rfl, hok⟩ := hp e (by simp)
    simp only [List.cons_append, strsplitLoop, hok]
    exact ih _ _ (fun u hu => hp u (by simp [hu]))

/-- Witness for C7: batch ["1", NA] with separator ',' fails with the NA
error. -/
theorem C7_missing_input_witness :
    strsplit_as_list_of_ints [some [49], none] [44] = Except.error BatchErr.naInput :=
  C7_missing_input [some [49]] [] [44] (by decide)
    (by
      intro e he
      rw [List.mem_singleton] at he
      subst he
      exact ⟨[49], [1], rfl, rfl⟩)

/-- C1 counterexample: the separator ' ' (byte 32) is not a decimal digit,
'+' or '-', so the claim includes it; joining [1, 2] with it gives
"1 2" (bytes 49 32 50), but the post-token blank skip at strutils.c line 87
consumes the space before the separator comparison, so the parse fails
with SeparatorExpected at char 3 instead of returning [1, 2]. -/
theorem C1_counterexample :
    joinInts 32 [1, 2] = [49, 32, 50] ∧
    strsplit_as_list_of_ints [some (joinInts 32 [1, 2])] [32] =
      Except.error (BatchErr.elementError 1 ⟨ParseErrCat.sepExpected, 3⟩) :=
  ⟨rfl, rfl⟩

/-- C1 (amended): the round-trip holds for every non-empty sequence of
non-negative integers within 32-bit signed range and every separator byte
that is not a decimal digit, '+', '-', a blank (space or tab — a blank
separator is swallowed by the post-token blank skip), or NUL (an R string
cannot contain the NUL byte, so a NUL separator cannot produce a joined C
string; the hypothesis records this domain restriction). -/
theorem C1_roundtrip (c : Nat) (vs : List Nat) (hne : vs ≠ [])
    (hbound : ∀ v ∈ vs, v ≤ 2147483647)
    (hdc : isdigitC c = false) (hbc : isblankC c = false)
    (hplus : c ≠ 43) (hminus : c ≠ 45) (hnz : c ≠ 0) :
    strsplit_as_list_of_ints [some (joinInts c vs)] [c] =
      Except.ok [vs.map Int.ofNat] := by
  have hval : (isdigitC ([c].headD 0) || [c].headD 0 == 43 || [c].headD 0 == 45)
      = false := by
    simp only [List.headD_cons, hdc, Bool.false_or]
    simp [hplus, hminus]
  rw [strsplit_valid hval]
  simp only [List.headD_cons]
  have hexp : explode_string_as_integer_vector (joinInts c vs) c
      = Except.ok (vs.map Int.ofNat) := by
    have h1 := roundtrip_loop hdc hbc vs hne hbound ((joinInts c vs).length + 1) 0 []
      (by omega)
    simpa [explode_string_as_integer_vector] using h1
  simp only [strsplitLoop, hexp, List.nil_append]

/-- Witness for C1 at values [1, 2] and separator ';' (byte 59). -/
theorem C1_roundtrip_witness :
    strsplit_as_list_of_ints [some (joinInts 59 [1, 2])] [59] =
      Except.ok [[1, 2].map Int.ofNat] :=
  C1_roundtrip 59 [1, 2] (by decide) (by decide) (by decide) (by decide)
    (by decide) (by decide) (by decide)

/-- C3 counterexample: for the input "2147483648 " (trailing blank) the
token ends at char 10, so "immediately after the token" is char 11; but
the code skips the blank before the range test (strutils.c lines 87-88)
and reports the out-of-range error at char 12. -/
theorem C3_counterexample :
    strsplit_as_list_of_ints [some [50, 49, 52, 55, 52, 56, 51, 54, 52, 56, 32]] [44] =
      Except.error (BatchErr.elementError 1 ⟨ParseErrCat.outOfRange, 12⟩) := rfl

/-- C3 (amended): whenever the loop scans a token whose value lies outside
[-2147483648, 2147483647], the parse fails with OutOfRange at the 1-based
offset immediately after the token *and any blanks that follow it*
(`off + n + blanksAfter + 1`); in particular "2147483648" fails with
OutOfRange at char 11 while "2147483647" parses to [2147483647]. -/
theorem C3_out_of_range :
    (∀ (sep0 f off c : Nat) (cs : List Nat) (acc : List Int) (v : Int) (n : Nat),
      scanLong (c :: cs) = some (v, n) → (v < INT_MIN ∨ INT_MAX < v) →
      explodeLoop sep0 (f + 1) (c :: cs) off acc =
        Except.error ⟨ParseErrCat.outOfRange, off + n + blanksAfter (c :: cs) n + 1⟩) ∧
    strsplit_as_list_of_ints [some [50, 49, 52, 55, 52, 56, 51, 54, 52, 56]] [44] =
      Except.error (BatchErr.elementError 1 ⟨ParseErrCat.outOfRange, 11⟩) ∧
    strsplit_as_list_of_ints [some [50, 49, 52, 55, 52, 56, 51, 54, 52, 55]] [44] =
      Except.ok [[2147483647]] := by
  refine ⟨?_, rfl, rfl⟩
  intro sep0 f off c cs acc v n hscan hr
  exact explodeLoop_cons_oor hscan hr

/-- Witness for C3 on the bare token "2147483648": OutOfRange at char 11. -/
theorem C3_out_of_range_witness :
    explodeLoop 44 1 [50, 49, 52, 55, 52, 56, 51, 54, 52, 56] 0 [] =
      Except.error ⟨ParseErrCat.outOfRange, 11⟩ :=
  C3_out_of_range.1 44 0 0 50 [49, 52, 55, 52, 56, 51, 54, 52, 56] [] 2147483648 10 rfl
    (by decide)

/-- C6 counterexample: the claim says a blank before the first token
participates in normal token matching — a token being an optional sign
followed by digits, no token starts at char 1 of " 1", so the parse would
have to fail with TokenExpected — but `sscanf`'s `%ld` skips leading
whitespace, and parsing [" 1"] (bytes 32 49) succeeds with [[1]]. -/
theorem C6_counterexample :
    strsplit_as_list_of_ints [some [32, 49]] [44] = Except.ok [[1]] := rfl

/-- C6 (amended): blanks immediately after a token are skipped before the
separator comparison, and in addition any whitespace standing before a
token — at the start of the string or after a consumed separator — is
skipped by the numeric scanner itself, shifting offsets by its length but
not affecting the outcome; "1, 2,3" parses to [1,2,3] and "1 ,2" (blank
after the token) parses to [1,2]. -/
theorem C6_blank_handling :
    (∀ (ws l : List Nat) (sep0 off : Nat) (acc : List Int) (v : Int) (n f f' : Nat),
      (∀ ch ∈ ws, isspaceC ch = true) → scanLong l = some (v, n) →
      (ws ++ l).length < f → l.length < f' →
      explodeLoop sep0 f (ws ++ l) off acc
        = explodeLoop sep0 f' l (off + ws.length) acc) ∧
    strsplit_as_list_of_ints [some [49, 44, 32, 50, 44, 51]] [44] =
      Except.ok [[1, 2, 3]] ∧
    strsplit_as_list_of_ints [some [49, 32, 44, 50]] [44] = Except.ok [[1, 2]] := by
  refine ⟨?_, rfl, rfl⟩
  intro ws l sep0 off acc v n f f' hws hscan hf hf'
  have hcons := scanLong_consumes hscan
  obtain ⟨c, cs, rfl⟩ : ∃ c cs, l = c :: cs := by
    cases l with
    | nil => rw [scanLong_nil] at hscan; cases hscan
    | cons a t => exact ⟨a, t, rfl⟩
  obtain ⟨c0, cs0, hshape⟩ : ∃ c0 cs0, ws ++ (c :: cs) = c0 :: cs0 := by
    cases ws with
    | nil => exact ⟨c, cs, rfl⟩
    | cons w0 ws' => exact ⟨w0, ws' ++ (c :: cs), rfl⟩
  obtain ⟨fu, rfl⟩ : ∃ k, f = k + 1 := ⟨f - 1, by omega⟩
  obtain ⟨fu', rfl⟩ : ∃ k, f' = k + 1 := ⟨f' - 1, by omega⟩
  rw [hshape]
  have hscanL : scanLong (c0 :: cs0) = some (v, n + ws.length) := by
    rw [← hshape]
    exact scanLong_ws_skip hws hscan
  have hdropEq : (c0 :: cs0).drop (n + ws.length) = (c :: cs).drop n := by
    rw [← hshape]
    exact drop_append_len ws (c :: cs) n
  have hblEq : blanksAfter (c0 :: cs0) (n + ws.length) = blanksAfter (c :: cs) n := by
    simp only [blanksAfter, hdropEq]
  have hlenL : cs0.length + 1 = ws.length + (cs.length + 1) := by
    have h4 := congrArg List.length hshape
    simp only [List.length_append, List.length_cons] at h4
    omega
  by_cases hr : v < INT_MIN ∨ INT_MAX < v
  · rw [explodeLoop_cons_oor hscanL hr, explodeLoop_cons_oor hscan hr, hblEq]
    simp only [Except.error.injEq, ParseErr.mk.injEq, true_and]
    omega
  · cases hd : ((c :: cs).drop n).drop (blanksAfter (c :: cs) n) with
    | nil =>
      have hdL : ((c0 :: cs0).drop (n + ws.length)).drop
          (blanksAfter (c0 :: cs0) (n + ws.length)) = [] := by
        rw [hdropEq, hblEq]
        exact hd
      rw [explodeLoop_cons_last hscanL hr hdL, explodeLoop_cons_last hscan hr hd]
    | cons d rest2 =>
      have hdL : ((c0 :: cs0).drop (n + ws.length)).drop
          (blanksAfter (c0 :: cs0) (n + ws.length)) = d :: rest2 := by
        rw [hdropEq, hblEq]
        exact hd
      have hlen := drop_sep_length hd
      simp only [List.length_cons] at hcons
      by_cases hsep : d = sep0
      · rw [explodeLoop_cons_sep hscanL hr hdL hsep,
          explodeLoop_cons_sep hscan hr hd hsep, hblEq]
        have hoff : off + (n + ws.length) + blanksAfter (c :: cs) n + 1
            = off + ws.length + n + blanksAfter (c :: cs) n + 1 := by omega
        rw [hoff]
        apply explodeLoop_fuel
        · simp only [List.length_append, List.length_cons] at hf
          omega
        · simp only [List.length_cons] at hf'
          omega
      · have hsep' : (d == sep0) = false := by simp [hsep]
        rw [explodeLoop_cons_badsep hscanL hr hdL hsep',
          explodeLoop_cons_badsep hscan hr hd hsep', hblEq]
        simp only [Except.error.injEq, ParseErr.mk.injEq, true_and]
        omega

/-- Witness for C6: parsing " 1" (bytes 32 49) from offset 0 equals parsing
"1" from offset 1. -/
theorem C6_blank_handling_witness :
    explodeLoop 44 3 [32, 49] 0 [] = explodeLoop 44 2 [49] 1 [] :=
  C6_blank_handling.1 [32] [49] 44 0 [] 1 1 3 2 (by decide) rfl (by decide) (by decide)

/-- C9: a successful batch parse returns one integer vector per input
element, in input order, and each result element equals the independent
parse of its own input string — no value parsed from one element can
appear in another's result.  In the embedding, the reset
`int_ae_buf.nelt = 0` at strutils.c line 77 is what makes
`explode_string_as_integer_vector` start from the empty buffer for every
element. -/
theorem C9_no_leak (x : List (Option (List Nat))) (sep : List Nat)
    (res : List (List Int)) (h : strsplit_as_list_of_ints x sep = Except.ok res) :
    res.length = x.length ∧
    ∀ (i : Nat) (s : List Nat), x[i]? = some (some s) →
      ∃ v, explode_string_as_integer_vector s (sep.headD 0) = Except.ok v ∧
        res[i]? = some v := by
  by_cases hval : (isdigitC (sep.headD 0) || sep.headD 0 == 43 || sep.headD 0 == 45) = true
  · rw [strsplit_as_list_of_ints] at h
    simp only [hval, if_true] at h
    cases h
  · rw [strsplit_valid (by simpa using hval)] at h
    obtain ⟨tail, htl, hlen, htail⟩ := strsplitLoop_ok x (sep.headD 0) 0 [] res h
    rw [List.nil_append] at htl
    subst htl
    exact ⟨hlen, htail⟩

/-- Witness for C9: parsing ["1,2", "3"] with ',' yields [[1,2],[3]] — one
result per input. -/
theorem C9_no_leak_witness :
    ([[1, 2], [3]] : List (List Int)).length
      = ([some [49, 44, 50], some [51]] : List (Option (List Nat))).length :=
  (C9_no_leak [some [49, 44, 50], some [51]] [44] [[1, 2], [3]] rfl).1
